import Mathlib

/-!
Verification of the multi-peer session registry and broadcast fan-out core
of the EEBUS device tester.  Go source functions are shallowly embedded as
Lean functions: the Go maps `peers`, `globalUseCaseState`, `usecaseState`
become association lists with lookup/insert semantics, the websocket
connection set becomes a list of connections each of which either accepts
or rejects writes, timestamps become naturals passed explicitly, and every
operation returns the list of messages it publishes.
-/

namespace DeviceTester

/-- Association-list model of a Go `map[string]α`: lookup by key. -/
def lookupA {α : Type} : List (String × α) → String → Option α
  | [], _ => none
  | (k, v) :: rest, key => if k = key then some v else lookupA rest key

/-- Association-list model of a Go `map[string]α`: insert/replace a key. -/
def insertA {α : Type} : List (String × α) → String → α → List (String × α)
  | [], key, v => [(key, v)]
  | (k, w) :: rest, key, v =>
      if k = key then (key, v) :: rest else (k, w) :: insertA rest key v

/-- Keys of an association list. -/
def keysA {α : Type} (m : List (String × α)) : List String := m.map Prod.fst

/-- A websocket connection (`*websocket.Conn` entry of `wsConns`): `healthy`
says whether `WriteMessage` succeeds on it. -/
structure Conn where
  id : Nat
  healthy : Bool
deriving DecidableEq

/-- Peer info serialized by `broadcastPeerList` (struct `PeerInfo`). -/
structure PeerInfo where
  ski : String
  connected : Bool
  lastSeen : Nat
  usecases : List (String × Bool)
  deviceName : String
  brand : String
  model : String
  deviceType : String
  serial : String
  identifier : String
deriving DecidableEq

/-- Messages pushed to websocket clients, mirroring the JSON objects built
by the Go code (`type` discriminator plus fields). -/
inductive Msg where
  | text (line : String)
  | usecase (name : String) (supported : Bool) (ski : String)
  | peersList (infos : List PeerInfo)
  | entities (ski : String) (payload : List String)
deriving DecidableEq

/-- The per-peer capability-values record (struct `usecaseData`); scalar
payloads are modelled as integers since they are stored verbatim. -/
structure UsecaseData where
  lpcFailsafePower : Int := 0
  lpcFailsafeDur : Int := 0
  lpcLimitValue : Int := 0
  lpcLimitDurSeconds : Int := 0
  lpcLimitActive : Bool := false
  lpcConsumptionLimitNominalMax : Int := 0
  lpcHeartbeatOk : Bool := false
  lpcHeartbeatTimestamp : Nat := 0
  lppFailsafeDur : Int := 0
  lppFailsafeValue : Int := 0
  lppLimitValue : Int := 0
  lppLimitDuration : Int := 0
  lppLimitActive : Bool := false
  lppHeartbeatOk : Bool := false
  lppHeartbeatTimestamp : Nat := 0
  evcemCurrentPerPhase : List Int := []
  evcemPhasesConnected : Nat := 0
  evcemEnergyCharged : Int := 0
  evcemPowerPerPhase : List Int := []
deriving DecidableEq

/-- One peer record (struct `peerData`); remote entities and the cached
entities JSON are kept as opaque string lists. -/
structure PeerData where
  usecaseData : UsecaseData
  entities : List String
  lastEntitiesJSON : List String
  usecaseState : List (String × Bool)
  connected : Bool
  ski : String
  lastSeen : Nat
  deviceName : String := ""
  brand : String := ""
  model : String := ""
  deviceType : String := ""
  serial : String := ""
  identifier : String := ""
deriving DecidableEq

/-- The shared state of the `hems` struct that the claims are about. -/
structure Hems where
  logs : List String
  maxLogs : Int
  wsConns : List Conn
  peers : List (String × PeerData)
  globalUseCaseState : List (String × Bool)
deriving DecidableEq

/-- The `for c := range h.wsConns` delivery loop used by every broadcast in
the source: write the message to each connection, closing and deleting any
connection whose write fails.  Returns the surviving connection set and the
list of `(connection id, message)` deliveries that succeeded. -/
def pushToConns : List Conn → Msg → List Conn × List (Nat × Msg)
  | [], _ => ([], [])
  | c :: rest, m =>
      let r := pushToConns rest m
      if c.healthy then (c :: r.1, (c.id, m) :: r.2) else r

/-- `appendLog` (part_001 lines 1530-1553): append a line to the bounded
log buffer, dropping the oldest entry when the buffer is full, then
broadcast the line to all websocket clients, evicting broken ones. -/
def appendLog (h : Hems) (line : String) : Hems × List Msg :=
  let maxLogs : Int := if h.maxLogs ≤ 0 then 1000 else h.maxLogs
  let logs := if (h.logs.length : Int) ≥ maxLogs then h.logs.tail else h.logs
  let logs := logs ++ [line]
  let conns := (pushToConns h.wsConns (Msg.text line)).1
  ({ h with logs := logs, maxLogs := maxLogs, wsConns := conns },
   [Msg.text line])

/-- `getLogs` (lines 1555-1561): snapshot copy of the log buffer. -/
def getLogs (h : Hems) : List String := h.logs

/-- `getOrCreatePeer` (lines 279-310): return the existing record for the
identifier, refreshing only `lastSeen`; otherwise create a fresh record
whose capability-support map is seeded from the global state. -/
def getOrCreatePeer (h : Hems) (ski : String) (now : Nat) : PeerData × Hems :=
  match lookupA h.peers ski with
  | some peer =>
      let peer := { peer with lastSeen := now }
      (peer, { h with peers := insertA h.peers ski peer })
  | none =>
      let peer : PeerData :=
        { usecaseData := {}
          entities := []
          lastEntitiesJSON := []
          usecaseState := h.globalUseCaseState
          connected := false
          ski := ski
          lastSeen := now }
      (peer, { h with peers := insertA h.peers ski peer })

/-- `getPeer` (lines 313-325): non-creating lookup. -/
def getPeer (h : Hems) (ski : String) : Option PeerData :=
  lookupA h.peers ski

/-- `broadcastPeerList` (lines 1296-1338): copy the peer list into
`PeerInfo` values and push one `peers` message to every client. -/
def broadcastPeerList (h : Hems) : Hems × List Msg :=
  let infos := h.peers.map (fun kp =>
    { ski := kp.1
      connected := kp.2.connected
      lastSeen := kp.2.lastSeen
      usecases := kp.2.usecaseState
      deviceName := kp.2.deviceName
      brand := kp.2.brand
      model := kp.2.model
      deviceType := kp.2.deviceType
      serial := kp.2.serial
      identifier := kp.2.identifier : PeerInfo })
  let m := Msg.peersList infos
  ({ h with wsConns := (pushToConns h.wsConns m).1 }, [m])

/-- `setUsecaseSupported` (lines 1589-1624): if the stored global value
already equals the requested one, return without any update or broadcast;
otherwise update the global map, update every stored peer's support map,
and push one per-peer `usecase` message to every client. -/
def setUsecaseSupported (h : Hems) (name : String) (supported : Bool) :
    Hems × List Msg :=
  if lookupA h.globalUseCaseState name = some supported then (h, [])
  else
    let global := insertA h.globalUseCaseState name supported
    let peers := h.peers.map (fun kp =>
      (kp.1, { kp.2 with usecaseState := insertA kp.2.usecaseState name supported }))
    let msgs := peers.map (fun kp => Msg.usecase name supported kp.1)
    let conns := msgs.foldl (fun cs m => (pushToConns cs m).1) h.wsConns
    ({ h with globalUseCaseState := global, peers := peers, wsConns := conns },
     msgs)

/-- `setUsecaseSupportedForPeer` (lines 1627-1660): unconditionally set the
peer's support flag and the global flag, then unconditionally push one
`usecase` message (carrying the peer's ski) to every client.  The Go
function takes the peer pointer; the `none` branch is its `peer == nil`
guard. -/
def setUsecaseSupportedForPeer (h : Hems) (ski : String) (name : String)
    (supported : Bool) : Hems × List Msg :=
  match lookupA h.peers ski with
  | none => (h, [])
  | some peer =>
      let peer := { peer with usecaseState := insertA peer.usecaseState name supported }
      let global := insertA h.globalUseCaseState name supported
      let m := Msg.usecase name supported peer.ski
      let conns := (pushToConns h.wsConns m).1
      ({ h with peers := insertA h.peers ski peer,
                globalUseCaseState := global, wsConns := conns }, [m])

/-- `updateEntitiesFromDevice` (lines 1663-1741): if the peer and device are
both present, store the device's entity list, cache its serialization, and
push one `entities` message to every client. -/
def updateEntitiesFromDevice (h : Hems) (ski : String)
    (device : Option (List String)) : Hems × List Msg :=
  match lookupA h.peers ski, device with
  | some peer, some ents =>
      let peer := { peer with entities := ents, lastEntitiesJSON := ents }
      let m := Msg.entities ski ents
      ({ h with peers := insertA h.peers ski peer,
                wsConns := (pushToConns h.wsConns m).1 }, [m])
  | _, _ => (h, [])

/-- Helper used by the event handlers: mutate the capability-values record
of the peer stored under `ski` (the Go handlers mutate it through the peer
pointer returned by `getOrCreatePeer`). -/
def modifyUsecaseData (h : Hems) (ski : String) (f : UsecaseData → UsecaseData) :
    Hems :=
  match lookupA h.peers ski with
  | none => h
  | some peer =>
      let peer := { peer with usecaseData := f peer.usecaseData }
      { h with peers := insertA h.peers ski peer }

/-- A `ucapi.LoadLimit` as returned by the consumption/production limit
accessors: value, duration (in nanoseconds, like Go `time.Duration`) and
active flag. -/
structure LoadLimit where
  value : Int
  duration : Int
  isActive : Bool
deriving DecidableEq

/-- Go `time.Second` in nanoseconds. -/
def timeSecond : Int := 1000000000

/-- Go `time.Minute` in nanoseconds. -/
def timeMinute : Int := 60000000000

/-- Events dispatched to `HandleEgLPP` (package `eglpp`). -/
inductive LppEvent where
  | useCaseSupportUpdate
  | dataUpdateFailsafeDurationMinimum
  | dataUpdateFailsafeProductionActivePowerLimit
  | dataUpdateLimit
  | dataUpdateHeartbeat
  | otherEvent
deriving DecidableEq

/-- Results of the external protocol engine's LPP accessors for the entity
of one event; `none` models the accessor returning an error. -/
structure LppAccess where
  failsafeDurationMinimum : Option Int
  failsafeProductionActivePowerLimit : Option Int
  productionLimit : Option LoadLimit
  heartbeatWithinDuration : Bool
deriving DecidableEq

/-- `HandleEgLPP` (lines 572-611).  Note the source first runs
`if event == eglpp.UseCaseSupportUpdate` and then a `switch` whose first
case repeats the same call, so a support update triggers
`setUsecaseSupportedForPeer` twice; every invocation ends with
`updateEntitiesFromDevice`. -/
def HandleEgLPP (h : Hems) (ski : String) (device : Option (List String))
    (acc : LppAccess) (event : LppEvent) (now : Nat) : Hems × List Msg :=
  let r0 := getOrCreatePeer h ski now
  let h := r0.2
  let r1 := if event = LppEvent.useCaseSupportUpdate then
              setUsecaseSupportedForPeer h ski "LPP" true
            else (h, [])
  let h := r1.1
  let r2 : Hems × List Msg :=
    match event with
    | LppEvent.useCaseSupportUpdate =>
        setUsecaseSupportedForPeer h ski "LPP" true
    | LppEvent.dataUpdateFailsafeDurationMinimum =>
        match acc.failsafeDurationMinimum with
        | none => (h, [])
        | some minDur =>
            (modifyUsecaseData h ski
              (fun d => { d with lppFailsafeDur := minDur.tdiv timeMinute }), [])
    | LppEvent.dataUpdateFailsafeProductionActivePowerLimit =>
        match acc.failsafeProductionActivePowerLimit with
        | none => (h, [])
        | some powerLimit =>
            (modifyUsecaseData h ski
              (fun d => { d with lppFailsafeValue := powerLimit }), [])
    | LppEvent.dataUpdateLimit =>
        match acc.productionLimit with
        | none => (h, [])
        | some limit =>
            (modifyUsecaseData h ski
              (fun d => { d with
                lppLimitValue := limit.value
                lppLimitDuration := limit.duration.tdiv timeSecond
                lppLimitActive := limit.isActive }), [])
    | LppEvent.dataUpdateHeartbeat =>
        (modifyUsecaseData h ski
          (fun d => { d with
            lppHeartbeatOk := acc.heartbeatWithinDuration
            lppHeartbeatTimestamp := now }), [])
    | LppEvent.otherEvent => (h, [])
  let h := r2.1
  let r3 := updateEntitiesFromDevice h ski device
  (r3.1, r1.2 ++ r2.2 ++ r3.2)

/-- Events dispatched to `HandleEgLPC` (package `eglpc`); `otherEvent`
stands for the `default` branch of the source's switch. -/
inductive LpcEvent where
  | useCaseSupportUpdate
  | dataUpdateLimit
  | dataUpdateFailsafeDurationMinimum
  | dataUpdateFailsafeConsumptionActivePowerLimit
  | dataUpdateHeartbeat
  | otherEvent
deriving DecidableEq

/-- Results of the external protocol engine's LPC accessors. -/
structure LpcAccess where
  consumptionLimit : Option LoadLimit
  failsafeDurationMinimum : Option Int
  failsafeConsumptionActivePowerLimit : Option Int
  heartbeatWithinDuration : Bool
  consumptionNominalMax : Option Int
deriving DecidableEq

/-- `HandleEgLPC` (lines 614-657): resolve the peer, apply the
event-specific mutation (keeping the stale value when the accessor fails),
then refresh the entity snapshot. -/
def HandleEgLPC (h : Hems) (ski : String) (device : Option (List String))
    (acc : LpcAccess) (event : LpcEvent) (now : Nat) : Hems × List Msg :=
  let r0 := getOrCreatePeer h ski now
  let h := r0.2
  let r2 : Hems × List Msg :=
    match event with
    | LpcEvent.useCaseSupportUpdate =>
        setUsecaseSupportedForPeer h ski "LPC" true
    | LpcEvent.dataUpdateLimit =>
        match acc.consumptionLimit with
        | none => (h, [])
        | some limit =>
            (modifyUsecaseData h ski
              (fun d => { d with
                lpcLimitActive := limit.isActive
                lpcLimitDurSeconds := limit.duration.tdiv timeSecond
                lpcLimitValue := limit.value }), [])
    | LpcEvent.dataUpdateFailsafeDurationMinimum =>
        match acc.failsafeDurationMinimum with
        | none => (h, [])
        | some minDur =>
            (modifyUsecaseData h ski
              (fun d => { d with lpcFailsafeDur := minDur.tdiv timeMinute }), [])
    | LpcEvent.dataUpdateFailsafeConsumptionActivePowerLimit =>
        match acc.failsafeConsumptionActivePowerLimit with
        | none => (h, [])
        | some powerLimit =>
            (modifyUsecaseData h ski
              (fun d => { d with lpcFailsafePower := powerLimit }), [])
    | LpcEvent.dataUpdateHeartbeat =>
        (modifyUsecaseData h ski
          (fun d => { d with
            lpcHeartbeatOk := acc.heartbeatWithinDuration
            lpcHeartbeatTimestamp := now }), [])
    | LpcEvent.otherEvent =>
        match acc.consumptionNominalMax with
        | none => (h, [])
        | some nominal =>
            (modifyUsecaseData h ski
              (fun d => { d with lpcConsumptionLimitNominalMax := nominal }), [])
  let h := r2.1
  let r3 := updateEntitiesFromDevice h ski device
  (r3.1, r2.2 ++ r3.2)

/-- Events dispatched to `HandleEgEvcem` (package `cemevcem`). -/
inductive EvcemEvent where
  | useCaseSupportUpdate
  | dataUpdateCurrentPerPhase
  | dataUpdatePhasesConnected
  | dataUpdateEnergyCharged
  | dataUpdatePowerPerPhase
deriving DecidableEq

/-- Results of the external protocol engine's EVCEM accessors. -/
structure EvcemAccess where
  currentPerPhase : Option (List Int)
  phasesConnected : Option Nat
  energyCharged : Option Int
  powerPerPhase : Option (List Int)
deriving DecidableEq

/-- `HandleEgEvcem` (lines 731-769). -/
def HandleEgEvcem (h : Hems) (ski : String) (device : Option (List String))
    (acc : EvcemAccess) (event : EvcemEvent) (now : Nat) : Hems × List Msg :=
  let r0 := getOrCreatePeer h ski now
  let h := r0.2
  let r2 : Hems × List Msg :=
    match event with
    | EvcemEvent.useCaseSupportUpdate =>
        setUsecaseSupportedForPeer h ski "EVCEM" true
    | EvcemEvent.dataUpdateCurrentPerPhase =>
        match acc.currentPerPhase with
        | none => (h, [])
        | some currentArray =>
            (modifyUsecaseData h ski
              (fun d => { d with evcemCurrentPerPhase := currentArray }), [])
    | EvcemEvent.dataUpdatePhasesConnected =>
        match acc.phasesConnected with
        | none => (h, [])
        | some phases =>
            (modifyUsecaseData h ski
              (fun d => { d with evcemPhasesConnected := phases }), [])
    | EvcemEvent.dataUpdateEnergyCharged =>
        match acc.energyCharged with
        | none => (h, [])
        | some energy =>
            (modifyUsecaseData h ski
              (fun d => { d with evcemEnergyCharged := energy }), [])
    | EvcemEvent.dataUpdatePowerPerPhase =>
        match acc.powerPerPhase with
        | none => (h, [])
        | some powerArray =>
            (modifyUsecaseData h ski
              (fun d => { d with evcemPowerPerPhase := powerArray }), [])
  let h := r2.1
  let r3 := updateEntitiesFromDevice h ski device
  (r3.1, r2.2 ++ r3.2)

/-! ### Identifier correlator (`extractSKIFromMessage`, lines 1484-1524) -/

/-- Go `strings.Contains`: the needle occurs as a contiguous substring. -/
def containsSub (hay needle : List Char) : Bool :=
  if needle.isPrefixOf hay then true
  else
    match hay with
    | [] => false
    | _ :: t => containsSub t needle

/-- Go `unicode.IsSpace`, as used by `strings.Fields`: the Latin-1
whitespace (tab, newline, vertical tab, form feed, carriage return,
space, NEL, NBSP) plus the White_Space code points of the `unicode.White_Space`
range table (U+1680, U+2000-U+200A, U+2028, U+2029, U+202F, U+205F,
U+3000). -/
def goIsSpace (c : Char) : Bool :=
  c = '\t' || c = '\n' || c.toNat = 11 || c.toNat = 12 || c = '\r' ||
  c = ' ' || c.toNat = 133 || c.toNat = 160 || c.toNat = 0x1680 ||
  (decide (0x2000 ≤ c.toNat) && decide (c.toNat ≤ 0x200A)) ||
  c.toNat = 0x2028 || c.toNat = 0x2029 || c.toNat = 0x202F ||
  c.toNat = 0x205F || c.toNat = 0x3000

/-- Worker for `goFields`: accumulates the current word (reversed). -/
def fieldsAux : List Char → List Char → List (List Char)
  | [], cur => if cur = [] then [] else [cur.reverse]
  | c :: rest, cur =>
      if goIsSpace c then
        if cur = [] then fieldsAux rest []
        else cur.reverse :: fieldsAux rest []
      else fieldsAux rest (c :: cur)

/-- Go `strings.Fields`: split around runs of whitespace. -/
def goFields (s : List Char) : List (List Char) := fieldsAux s []

/-- Drop leading characters belonging to the cutset. -/
def trimLeftIn (cut : List Char) (s : List Char) : List Char :=
  s.dropWhile (fun c => cut.contains c)

/-- Go `strings.Trim`: remove leading and trailing cutset characters. -/
def goTrim (s : List Char) (cut : List Char) : List Char :=
  (trimLeftIn cut ((trimLeftIn cut s).reverse)).reverse

/-- The delimiters stripped from candidate words (line 1507). -/
def skiDelims : List Char := "[]():;,.\"".toList

/-- The hex test of lines 1510-1516. -/
def isHexChar (c : Char) : Bool :=
  (decide ('0' ≤ c) && decide (c ≤ '9')) ||
  (decide ('a' ≤ c) && decide (c ≤ 'f')) ||
  (decide ('A' ≤ c) && decide (c ≤ 'F'))

/-- A word qualifies as an SKI when, after trimming delimiters, it is
exactly 64 hex characters (lines 1505-1520). -/
def isSkiWord (w : List Char) : Bool :=
  let w2 := goTrim w skiDelims
  w2.length == 64 && w2.all isHexChar

/-- `extractSKIFromMessage` (lines 1484-1524).  The Go loop
`for ski := range h.peers` visits the peer map in an unspecified,
runtime-randomized order, so the embedding takes that iteration order —
`peerOrder`, some permutation of the registered identifiers
`keysA h.peers` — as an input: return the first identifier in that order
that is contained in the message, else the first whitespace-delimited
word that trims to 64 hex characters, else `""`. -/
def extractSKIFromMessage (peerOrder : List String) (msg : String) : String :=
  match peerOrder.find? (fun ski => containsSub msg.toList ski.toList) with
  | some ski => ski
  | none =>
      match (goFields msg.toList).find? isSkiWord with
      | some w => String.mk (goTrim w skiDelims)
      | none => ""

/-! ### Lock traces

The mutexes of the `hems` struct and the sequences of lock / unlock /
write actions each operation performs, read off the source (deferred
unlocks run in LIFO order at function exit). -/

/-- The four mutexes guarding the shared state. -/
inductive LockId where
  | logMu
  | wsMu
  | peersMu
  | ucMu
deriving DecidableEq

/-- An atomic step of an operation, for lock-discipline analysis. -/
inductive TraceAct where
  | acq (l : LockId)
  | rel (l : LockId)
  | mutate
  | serialize
  | netWrite
deriving DecidableEq

/-- `appendLog` (lines 1530-1553): locks `logMu` (deferred unlock), mutates
the log slice, locks `wsMu` (deferred unlock), writes to every client, then
the deferred unlocks run. -/
def appendLogLockTrace : List TraceAct :=
  [.acq .logMu, .mutate, .acq .wsMu, .netWrite, .rel .wsMu, .rel .logMu]

/-- `getOrCreatePeer` (lines 279-310): locks `peersMu` (deferred unlock),
mutates the peer map, and seeds the new record under `ucMu`. -/
def getOrCreatePeerLockTrace : List TraceAct :=
  [.acq .peersMu, .mutate, .acq .ucMu, .mutate, .rel .ucMu, .rel .peersMu]

/-- `setUsecaseSupported` (lines 1589-1624): locks `ucMu` (deferred),
mutates the global map, locks `peersMu` to update all peers, releases it,
locks `wsMu` (deferred), serializes and writes inside the loop. -/
def setUsecaseSupportedLockTrace : List TraceAct :=
  [.acq .ucMu, .mutate, .acq .peersMu, .mutate, .rel .peersMu,
   .acq .wsMu, .serialize, .netWrite, .rel .wsMu, .rel .ucMu]

/-- `broadcastPeerList` (lines 1296-1338): copies the peer list under
`peersMu`, releases it, serializes, then writes under `wsMu`. -/
def broadcastPeerListLockTrace : List TraceAct :=
  [.acq .peersMu, .mutate, .rel .peersMu, .serialize,
   .acq .wsMu, .netWrite, .rel .wsMu]

/-- Pair every action of a trace with the set of locks held when it runs. -/
def lockStates : List TraceAct → List LockId → List (List LockId × TraceAct)
  | [], _ => []
  | a :: rest, held =>
      let held2 :=
        match a with
        | .acq l => l :: held
        | .rel l => held.erase l
        | _ => held
      (held, a) :: lockStates rest held2

/-- Greatest number of locks held simultaneously along a trace. -/
def maxLocksHeld (t : List TraceAct) : Nat :=
  ((lockStates t []).map (fun p =>
    match p.2 with
    | .acq _ => p.1.length + 1
    | _ => p.1.length)).foldr max 0

/-- Does some network write run while at least one lock is held? -/
def writeWhileLocked (t : List TraceAct) : Bool :=
  (lockStates t []).any (fun p => p.2 == TraceAct.netWrite && !p.1.isEmpty)

/-- Does some serialization run while at least one lock is held? -/
def serializeWhileLocked (t : List TraceAct) : Bool :=
  (lockStates t []).any (fun p => p.2 == TraceAct.serialize && !p.1.isEmpty)

/-- Order in which a trace acquires locks. -/
def acqSeq (t : List TraceAct) : List LockId :=
  t.filterMap (fun a => match a with | .acq l => some l | _ => none)

/-! ### Subscriber attach vs. in-flight broadcast (`/ws/logs`, lines
1796-1839, against `appendLog`, lines 1530-1553)

A two-thread interleaving model with the code's own lock structure: thread
A is the websocket attach handler for a fresh connection, thread B is a
concurrent `appendLog` triggered by a domain event.  A schedule picks which
thread runs its next atomic action; a step is invalid (the run aborts) if
it would acquire a lock that is currently held. -/

/-- What the freshly attached connection can receive. -/
inductive SnapMsg where
  | snapshot
  | delta
deriving DecidableEq

/-- Atomic actions of the two threads. -/
inductive SnapAct where
  | lock (l : LockId)
  | unlock (l : LockId)
  | register
  | sendSnapshot
  | appendLine
  | sendDelta
deriving DecidableEq

/-- Thread A, the `/ws/logs` handler: add the connection to `wsConns`
under `wsMu` (lines 1803-1805), then copy the logs under `logMu`
(`getLogs`, lines 1555-1561) and write the snapshot to the connection with
no lock held (lines 1808-1826). -/
def wsHandlerThread : List SnapAct :=
  [.lock .wsMu, .register, .unlock .wsMu,
   .lock .logMu, .unlock .logMu, .sendSnapshot]

/-- Thread B, a concurrent `appendLog`: append under `logMu`, then write
the new line to every currently registered connection under `wsMu`. -/
def appendLogThread : List SnapAct :=
  [.lock .logMu, .appendLine, .lock .wsMu, .sendDelta,
   .unlock .wsMu, .unlock .logMu]

/-- Interleaving state: the remaining programs, who owns each mutex
(`false` = thread A, `true` = thread B), whether the new connection is
already in `wsConns`, and what it has received so far. -/
structure SnapState where
  progA : List SnapAct
  progB : List SnapAct
  logOwner : Option Bool := none
  wsOwner : Option Bool := none
  registered : Bool := false
  received : List SnapMsg := []
deriving DecidableEq

/-- Execute one action for thread `who`; `none` when the action would
acquire a held lock or release a lock the thread does not own. -/
def doSnapAct (s : SnapState) (who : Bool) : SnapAct → Option SnapState
  | .lock .logMu =>
      match s.logOwner with
      | none => some { s with logOwner := some who }
      | some _ => none
  | .lock .wsMu =>
      match s.wsOwner with
      | none => some { s with wsOwner := some who }
      | some _ => none
  | .lock _ => none
  | .unlock .logMu =>
      if s.logOwner = some who then some { s with logOwner := none } else none
  | .unlock .wsMu =>
      if s.wsOwner = some who then some { s with wsOwner := none } else none
  | .unlock _ => none
  | .register => some { s with registered := true }
  | .sendSnapshot => some { s with received := s.received ++ [SnapMsg.snapshot] }
  | .appendLine => some s
  | .sendDelta =>
      some { s with received :=
        if s.registered then s.received ++ [SnapMsg.delta] else s.received }

/-- Let the chosen thread run its next action. -/
def snapStep (s : SnapState) (who : Bool) : Option SnapState :=
  if who then
    match s.progB with
    | [] => none
    | a :: rest => doSnapAct { s with progB := rest } who a
  else
    match s.progA with
    | [] => none
    | a :: rest => doSnapAct { s with progA := rest } who a

/-- Run a schedule (`false` = thread A, `true` = thread B). -/
def runSnap : List Bool → SnapState → Option SnapState
  | [], s => some s
  | w :: ws, s =>
      match snapStep s w with
      | none => none
      | some s2 => runSnap ws s2

/-- Both threads at their entry points, connection not yet registered. -/
def snapInit : SnapState := { progA := wsHandlerThread, progB := appendLogThread }

/-- What the new connection received, `[]` for an aborted run. -/
def receivedOf : Option SnapState → List SnapMsg
  | none => []
  | some s => s.received

/-- A lock-respecting schedule in which the broadcast of the in-flight
event runs between the registration and the snapshot write. -/
def raceSchedule : List Bool :=
  [false, false, false, true, true, true, true, true, true,
   false, false, false]

/-- The fully sequential schedule: the attach handler completes before the
event's `appendLog` starts. -/
def sequentialSchedule : List Bool :=
  [false, false, false, false, false, false,
   true, true, true, true, true, true]

/-! ### Map lemmas -/

theorem lookupA_insertA_self {α : Type} (m : List (String × α)) (k : String)
    (v : α) : lookupA (insertA m k v) k = some v := by
  induction m with
  | nil => simp [insertA, lookupA]
  | cons p rest ih =>
      by_cases hk : p.1 = k
      · simp [insertA, hk, lookupA]
      · simp [insertA, hk, lookupA, ih]

theorem lookupA_insertA_ne {α : Type} (m : List (String × α)) (k k' : String)
    (v : α) (hne : k' ≠ k) : lookupA (insertA m k v) k' = lookupA m k' := by
  have hkk : ¬ k = k' := fun e => hne e.symm
  induction m with
  | nil => simp [insertA, lookupA, hkk]
  | cons p rest ih =>
      by_cases hk : p.1 = k
      · simp [insertA, hk, lookupA, hkk]
      · simp [insertA, hk, lookupA, ih]

theorem lookupA_eq_none_iff {α : Type} (m : List (String × α)) (k : String) :
    lookupA m k = none ↔ k ∉ keysA m := by
  induction m with
  | nil => simp [lookupA, keysA]
  | cons p rest ih =>
      by_cases hk : p.1 = k
      · simp [lookupA, keysA, hk]
      · have hmem : k ∈ keysA (p :: rest) ↔ k = p.1 ∨ k ∈ keysA rest := by
          simp [keysA]
        rw [hmem]
        simp only [lookupA, hk, if_false]
        rw [ih]
        constructor
        · intro hn hor
          cases hor with
          | inl he => exact hk he.symm
          | inr hm => exact hn hm
        · intro hno hm
          exact hno (Or.inr hm)

theorem keysA_insertA_of_mem {α : Type} (m : List (String × α)) (k : String)
    (v : α) (hmem : lookupA m k ≠ none) : keysA (insertA m k v) = keysA m := by
  induction m with
  | nil => simp [lookupA] at hmem
  | cons p rest ih =>
      by_cases hk : p.1 = k
      · simp [insertA, hk, keysA]
      · have h2 : lookupA rest k ≠ none := by
          simpa [lookupA, hk] using hmem
        have h3 := ih h2
        simp only [keysA] at h3 ⊢
        simp [insertA, hk, h3]

theorem keysA_insertA_of_notmem {α : Type} (m : List (String × α)) (k : String)
    (v : α) (habs : lookupA m k = none) :
    keysA (insertA m k v) = keysA m ++ [k] := by
  induction m with
  | nil => simp [insertA, keysA]
  | cons p rest ih =>
      by_cases hk : p.1 = k
      · simp [lookupA, hk] at habs
      · have h2 : lookupA rest k = none := by simpa [lookupA, hk] using habs
        have h3 := ih h2
        simp only [keysA] at h3 ⊢
        simp [insertA, hk, h3]

theorem keysA_insertA_nodup {α : Type} (m : List (String × α)) (k : String)
    (v : α) (h : (keysA m).Nodup) : (keysA (insertA m k v)).Nodup := by
  cases hc : lookupA m k with
  | some w =>
      rw [keysA_insertA_of_mem m k v (by simp [hc])]
      exact h
  | none =>
      rw [keysA_insertA_of_notmem m k v hc]
      have hk : k ∉ keysA m := (lookupA_eq_none_iff m k).mp hc
      simp [List.nodup_append, h, hk]

theorem lookupA_map_value {α β : Type} (m : List (String × α))
    (g : α → β) (k : String) :
    lookupA (m.map (fun kp => (kp.1, g kp.2))) k = (lookupA m k).map g := by
  induction m with
  | nil => simp [lookupA]
  | cons p rest ih =>
      by_cases hk : p.1 = k
      · simp [lookupA, hk]
      · simp [lookupA, hk, ih]

/-! ### Delivery-loop lemmas -/

theorem pushToConns_eq (conns : List Conn) (m : Msg) :
    pushToConns conns m =
      (conns.filter (fun c => c.healthy),
       (conns.filter (fun c => c.healthy)).map (fun c => (c.id, m))) := by
  induction conns with
  | nil => rfl
  | cons c rest ih =>
      by_cases hc : c.healthy <;>
        simp [pushToConns, hc, ih, List.filter_cons]

/-! ### Registry lemmas -/

theorem getOrCreatePeer_of_lookup_some (h : Hems) (ski : String) (now : Nat)
    (p : PeerData) (hp : lookupA h.peers ski = some p) :
    getOrCreatePeer h ski now =
      ({ p with lastSeen := now },
       { h with peers := insertA h.peers ski ({ p with lastSeen := now }) }) := by
  simp [getOrCreatePeer, hp]

theorem getOrCreatePeer_peers_eq (h : Hems) (ski : String) (now : Nat) :
    (getOrCreatePeer h ski now).2.peers
      = insertA h.peers ski (getOrCreatePeer h ski now).1 := by
  cases hc : lookupA h.peers ski <;> simp [getOrCreatePeer, hc]

theorem getOrCreatePeer_frame (h : Hems) (ski : String) (now : Nat) :
    (getOrCreatePeer h ski now).2.globalUseCaseState = h.globalUseCaseState ∧
    (getOrCreatePeer h ski now).2.wsConns = h.wsConns ∧
    (getOrCreatePeer h ski now).2.logs = h.logs := by
  cases hc : lookupA h.peers ski <;> simp [getOrCreatePeer, hc]

theorem getOrCreatePeer_lookup_self (h : Hems) (ski : String) (now : Nat) :
    lookupA (getOrCreatePeer h ski now).2.peers ski
      = some (getOrCreatePeer h ski now).1 := by
  rw [getOrCreatePeer_peers_eq]
  exact lookupA_insertA_self _ _ _

/-- C1: at most one peer record is ever stored per identifier, and
`getOrCreatePeer` is idempotent: a second call with the same identifier
returns the record produced by the first call with only `lastSeen`
refreshed, the stored map still has exactly one entry for the identifier,
and records of all other identifiers are untouched. -/
theorem getOrCreatePeer_idempotent (h : Hems) (ski : String) (t1 t2 : Nat)
    (hnd : (keysA h.peers).Nodup) :
    (getOrCreatePeer (getOrCreatePeer h ski t1).2 ski t2).1
        = { (getOrCreatePeer h ski t1).1 with lastSeen := t2 } ∧
    lookupA (getOrCreatePeer (getOrCreatePeer h ski t1).2 ski t2).2.peers ski
        = some (getOrCreatePeer (getOrCreatePeer h ski t1).2 ski t2).1 ∧
    (keysA (getOrCreatePeer (getOrCreatePeer h ski t1).2 ski t2).2.peers).Nodup ∧
    (keysA (getOrCreatePeer (getOrCreatePeer h ski t1).2 ski t2).2.peers).count ski
        = 1 ∧
    (∀ k, k ≠ ski →
      lookupA (getOrCreatePeer (getOrCreatePeer h ski t1).2 ski t2).2.peers k
        = lookupA h.peers k) := by
  have h1 := getOrCreatePeer_lookup_self h ski t1
  have hpeers1 := getOrCreatePeer_peers_eq h ski t1
  have h2 := getOrCreatePeer_of_lookup_some (getOrCreatePeer h ski t1).2 ski t2
    (getOrCreatePeer h ski t1).1 h1
  have hfst : (getOrCreatePeer (getOrCreatePeer h ski t1).2 ski t2).1
      = { (getOrCreatePeer h ski t1).1 with lastSeen := t2 } := by
    rw [h2]
  have hpeers2 := getOrCreatePeer_peers_eq (getOrCreatePeer h ski t1).2 ski t2
  have hnd1 : (keysA (getOrCreatePeer h ski t1).2.peers).Nodup := by
    rw [hpeers1]; exact keysA_insertA_nodup _ _ _ hnd
  have hnd2 : (keysA (getOrCreatePeer (getOrCreatePeer h ski t1).2 ski t2).2.peers).Nodup := by
    rw [hpeers2]; exact keysA_insertA_nodup _ _ _ hnd1
  refine ⟨hfst, getOrCreatePeer_lookup_self _ ski t2, hnd2, ?_, ?_⟩
  · have hmem : ski ∈ keysA (getOrCreatePeer (getOrCreatePeer h ski t1).2 ski t2).2.peers := by
      by_contra hno
      have hn := (lookupA_eq_none_iff _ ski).mpr hno
      rw [getOrCreatePeer_lookup_self] at hn
      exact Option.noConfusion hn
    exact List.count_eq_one_of_mem hnd2 hmem
  · intro k hk
    rw [hpeers2, lookupA_insertA_ne _ _ _ _ hk, hpeers1,
      lookupA_insertA_ne _ _ _ _ hk]

/-- C1 witness: two consecutive creations for "ABC" on an empty registry. -/
theorem getOrCreatePeer_idempotent_witness :
    (getOrCreatePeer (getOrCreatePeer
        { logs := [], maxLogs := 1000, wsConns := [], peers := [],
          globalUseCaseState := [] } "ABC" 1).2 "ABC" 2).1
      = { (getOrCreatePeer
        { logs := [], maxLogs := 1000, wsConns := [], peers := [],
          globalUseCaseState := [] } "ABC" 1).1 with lastSeen := 2 } ∧
    (keysA (getOrCreatePeer (getOrCreatePeer
        { logs := [], maxLogs := 1000, wsConns := [], peers := [],
          globalUseCaseState := [] } "ABC" 1).2 "ABC" 2).2.peers).count "ABC"
      = 1 := by
  have := getOrCreatePeer_idempotent
    { logs := [], maxLogs := 1000, wsConns := [], peers := [],
      globalUseCaseState := [] } "ABC" 1 2 (by simp [keysA])
  exact ⟨this.1, this.2.2.2.1⟩

/-! ### C2: capability-support broadcasts -/

/-- A peer not yet supporting "LPC", for exercising repeated
`setUsecaseSupportedForPeer` calls. -/
def c2Peer : PeerData :=
  { usecaseData := {}
    entities := []
    lastEntitiesJSON := []
    usecaseState := [("LPC", false)]
    connected := true
    ski := "ABC"
    lastSeen := 0 }

/-- One healthy subscriber, one registered peer, "LPC" recorded as
unsupported both per-peer and globally. -/
def c2State : Hems :=
  { logs := []
    maxLogs := 1000
    wsConns := [{ id := 1, healthy := true }]
    peers := [("ABC", c2Peer)]
    globalUseCaseState := [("LPC", false)] }

/-- C2 counterexample: `setUsecaseSupportedForPeer` broadcasts on every
call even when the stored boolean does not change — two identical
`setSupported(peer, "LPC", true)` calls emit two broadcast messages, not
one, refuting the claimed "exactly one broadcast in total". -/
theorem setSupported_twice_emits_two :
    ((setUsecaseSupportedForPeer c2State "ABC" "LPC" true).2 ++
     (setUsecaseSupportedForPeer
        (setUsecaseSupportedForPeer c2State "ABC" "LPC" true).1
        "ABC" "LPC" true).2).length = 2 ∧
    ¬ ((setUsecaseSupportedForPeer c2State "ABC" "LPC" true).2 ++
       (setUsecaseSupportedForPeer
          (setUsecaseSupportedForPeer c2State "ABC" "LPC" true).1
          "ABC" "LPC" true).2).length = 1 := by
  constructor
  · rfl
  · intro hcontra
    simp [setUsecaseSupportedForPeer, c2State, c2Peer, lookupA, insertA,
      pushToConns] at hcontra

/-- C2 amended: the global `setUsecaseSupported` broadcasts only when the
stored global boolean actually changes (and then emits one message per
registered peer, none when it is unchanged), while the per-peer
`setUsecaseSupportedForPeer` broadcasts unconditionally — exactly one
message per call whether or not the stored boolean changes — so repeating
it with identical arguments emits one additional message each time. -/
theorem usecaseBroadcast_iff_change (h : Hems) (name ski : String)
    (supported : Bool) (peer : PeerData) :
    (lookupA h.globalUseCaseState name = some supported →
       setUsecaseSupported h name supported = (h, [])) ∧
    (lookupA h.globalUseCaseState name ≠ some supported →
       (setUsecaseSupported h name supported).2.length = h.peers.length) ∧
    (lookupA h.peers ski = some peer →
       (setUsecaseSupportedForPeer h ski name supported).2
         = [Msg.usecase name supported peer.ski]) := by
  refine ⟨?_, ?_, ?_⟩
  · intro hsame
    simp [setUsecaseSupported, hsame]
  · intro hdiff
    simp [setUsecaseSupported, hdiff]
  · intro hp
    simp [setUsecaseSupportedForPeer, hp]

/-- C2 amended, witness: a change-free global call emits nothing; a global
flip emits one message for the single registered peer; the per-peer call
emits its one message. -/
theorem usecaseBroadcast_iff_change_witness :
    setUsecaseSupported c2State "LPC" false = (c2State, []) ∧
    (setUsecaseSupported c2State "LPC" true).2.length = 1 ∧
    (setUsecaseSupportedForPeer c2State "ABC" "LPC" true).2
      = [Msg.usecase "LPC" true "ABC"] := by
  have hw := usecaseBroadcast_iff_change c2State "LPC" "ABC" true c2Peer
  have hw2 := usecaseBroadcast_iff_change c2State "LPC" "ABC" false c2Peer
  refine ⟨hw2.1 (by decide), ?_, ?_⟩
  · have := hw.2.1 (by decide)
    simpa [c2State] using this
  · have := hw.2.2 (by decide)
    simpa [c2Peer] using this

/-! ### C3: bounded log ring buffer -/

/-- A whole sequence of `appendLog` calls. -/
def appendAll (h : Hems) (lines : List String) : Hems :=
  lines.foldl (fun hh l => (appendLog hh l).1) h

/-- The pure log-slice transition performed by one `appendLog` once the
capacity has been normalized to the positive `c`. -/
def ringStep (c : Nat) (logs : List String) (line : String) : List String :=
  (if c ≤ logs.length then logs.tail else logs) ++ [line]

theorem appendLog_logs_eq (h : Hems) (line : String) (hc : 0 < h.maxLogs) :
    (appendLog h line).1.logs = ringStep h.maxLogs.toNat h.logs line ∧
    (appendLog h line).1.maxLogs = h.maxLogs := by
  have h1 : ¬ h.maxLogs ≤ 0 := by omega
  by_cases hlen : h.maxLogs.toNat ≤ h.logs.length
  · have h2 : (h.logs.length : Int) ≥ h.maxLogs := Int.toNat_le.mp hlen
    simp [appendLog, ringStep, h1, h2, hlen]
  · have h2 : ¬ ((h.logs.length : Int) ≥ h.maxLogs) :=
      fun hh => hlen (Int.toNat_le.mpr hh)
    simp [appendLog, ringStep, h1, h2, hlen]

theorem ringStep_eq (c : Nat) (hc : 0 < c) (logs0 : List String)
    (l : String) (hlen : logs0.length ≤ c) :
    ringStep c logs0 l = (logs0 ++ [l]).drop (logs0.length + 1 - c) ∧
    (ringStep c logs0 l).length ≤ c := by
  by_cases hge : c ≤ logs0.length
  · have heq : logs0.length = c := le_antisymm hlen hge
    cases logs0 with
    | nil => simp at heq; omega
    | cons a as =>
        have heq2 : as.length + 1 = c := by simpa using heq
        have hge2 : c ≤ as.length + 1 := by omega
        have hd : as.length + 1 + 1 - c = 1 := by omega
        constructor
        · simp [ringStep, hge2, hd]
        · simp [ringStep, hge2]
          omega
  · have hlt : logs0.length < c := by omega
    have hd : logs0.length + 1 - c = 0 := by omega
    constructor
    · simp [ringStep, hge, hd]
    · simp [ringStep, hge]
      omega

theorem drop_append_of_le {α : Type} :
    ∀ (l1 l2 : List α) (n : Nat), n ≤ l1.length →
      (l1 ++ l2).drop n = l1.drop n ++ l2 := by
  intro l1
  induction l1 with
  | nil =>
      intro l2 n hn
      simp at hn
      simp [hn]
  | cons a as ih =>
      intro l2 n hn
      cases n with
      | zero => simp
      | succ m =>
          simp only [List.cons_append, List.drop_succ_cons]
          exact ih l2 m (by simpa using hn)

theorem ringFold_eq (c : Nat) (hc : 0 < c) (lines : List String) :
    ∀ logs0 : List String, logs0.length ≤ c →
      List.foldl (ringStep c) logs0 lines
        = (logs0 ++ lines).drop (logs0.length + lines.length - c) := by
  induction lines with
  | nil =>
      intro logs0 hlen
      simp [Nat.sub_eq_zero_of_le hlen]
  | cons l ls ih =>
      intro logs0 hlen
      rw [List.foldl_cons]
      obtain ⟨hre, hrl⟩ := ringStep_eq c hc logs0 l hlen
      rw [ih _ hrl, hre]
      have hd : logs0.length + 1 - c ≤ (logs0 ++ [l]).length := by
        simp
      rw [← drop_append_of_le (logs0 ++ [l]) ls _ hd, List.drop_drop]
      have hL : ((logs0 ++ [l]).drop (logs0.length + 1 - c)).length
          = logs0.length + 1 - (logs0.length + 1 - c) := by
        simp
      rw [hL]
      have harr : logs0 ++ l :: ls = (logs0 ++ [l]) ++ ls := by simp
      rw [harr]
      congr 1
      simp only [List.length_append, List.length_cons, List.length_nil]
      omega

theorem appendAll_logs (lines : List String) :
    ∀ h : Hems, 0 < h.maxLogs →
      (appendAll h lines).logs
          = List.foldl (ringStep h.maxLogs.toNat) h.logs lines ∧
      (appendAll h lines).maxLogs = h.maxLogs := by
  induction lines with
  | nil =>
      intro h hc
      simp [appendAll]
  | cons l ls ih =>
      intro h hc
      obtain ⟨he, hm⟩ := appendLog_logs_eq h l hc
      have hc2 : 0 < (appendLog h l).1.maxLogs := by rw [hm]; exact hc
      obtain ⟨ih1, ih2⟩ := ih (appendLog h l).1 hc2
      have hstep : appendAll h (l :: ls) = appendAll (appendLog h l).1 ls := by
        simp [appendAll]
      rw [hstep]
      refine ⟨?_, by rw [ih2, hm]⟩
      rw [ih1, hm, he, List.foldl_cons]

/-- C3: with a configured positive capacity `c`, the log buffer never
exceeds `c` lines at any point of an append sequence; after appending
`c + k` distinct lines (`k ≥ 1`) to an empty buffer the snapshot is
exactly the last `c` lines, the oldest `k` lines are absent from it, and
the most recently appended line is its last element. -/
theorem logRingBuffer_bounded (c : Int) (hc : 0 < c) (k : Nat) (hk : 1 ≤ k)
    (lines : List String) (hlen : lines.length = c.toNat + k)
    (hnd : lines.Nodup) (h0 : Hems) (hl : h0.logs = []) (hm : h0.maxLogs = c) :
    (∀ n : Nat, ((getLogs (appendAll h0 (lines.take n))).length : Int) ≤ c) ∧
    getLogs (appendAll h0 lines) = lines.drop k ∧
    (∀ l ∈ lines.take k, l ∉ getLogs (appendAll h0 lines)) ∧
    (getLogs (appendAll h0 lines)).getLast? = lines.getLast? := by
  have hc0 : 0 < h0.maxLogs := by rw [hm]; exact hc
  have hcN : 0 < c.toNat := by omega
  have hsnap : ∀ ls : List String,
      getLogs (appendAll h0 ls) = ls.drop (ls.length - c.toNat) := by
    intro ls
    obtain ⟨ha, _⟩ := appendAll_logs ls h0 hc0
    rw [getLogs, ha, hm, hl]
    rw [ringFold_eq c.toNat hcN ls [] (by simp)]
    simp
  have hmain : getLogs (appendAll h0 lines) = lines.drop k := by
    rw [hsnap lines, hlen]
    congr 1
    omega
  refine ⟨?_, hmain, ?_, ?_⟩
  · intro n
    rw [hsnap (lines.take n)]
    have := List.length_drop ((lines.take n).length - c.toNat) (lines.take n)
    omega
  · intro l hmem
    rw [hmain]
    exact fun hmem2 => List.disjoint_take_drop hnd (le_refl k) hmem hmem2
  · rw [hmain]
    have hne : lines.drop k ≠ [] := by
      have := List.length_drop k lines
      intro hnil
      rw [hnil] at this
      simp at this
      omega
    calc (lines.drop k).getLast? = (lines.take k ++ lines.drop k).getLast? :=
          (List.getLast?_append_of_ne_nil _ hne).symm
      _ = lines.getLast? := by rw [List.take_append_drop]

/-- Empty two-line buffer for the C3 witness. -/
def c3State : Hems :=
  { logs := [], maxLogs := 2, wsConns := [], peers := [],
    globalUseCaseState := [] }

/-- C3 witness: capacity 2, three distinct lines appended; the snapshot is
the last two lines and the oldest line is gone. -/
theorem logRingBuffer_bounded_witness :
    getLogs (appendAll c3State ["a", "b", "c"]) = ["b", "c"] ∧
    "a" ∉ getLogs (appendAll c3State ["a", "b", "c"]) := by
  have hw := logRingBuffer_bounded 2 (by decide) 1 (by decide)
    ["a", "b", "c"] (by decide) (by decide) c3State rfl rfl
  exact ⟨hw.2.1, hw.2.2.1 "a" (by decide)⟩

/-! ### C4: eviction of failed subscribers -/

/-- C4: in any publish (`pushToConns`, the delivery loop of `appendLog`,
`broadcastPeerList`, and the use-case setters), a subscriber whose write
fails is removed from the set within that publish, every other (healthy)
subscriber of the same call still receives the message and survives, the
failed subscriber receives nothing, and the following publish delivers
nothing to it either. -/
theorem publish_evicts_failed (conns : List Conn) (m m2 : Msg) (c : Conn)
    (hmem : c ∈ conns) (hfail : c.healthy = false)
    (hids : (conns.map Conn.id).Nodup) :
    c ∉ (pushToConns conns m).1 ∧
    (∀ c', c' ∈ conns → c'.healthy = true →
       c' ∈ (pushToConns conns m).1 ∧ (c'.id, m) ∈ (pushToConns conns m).2) ∧
    (∀ mm, (c.id, mm) ∉ (pushToConns conns m).2) ∧
    (∀ mm, (c.id, mm) ∉ (pushToConns (pushToConns conns m).1 m2).2) := by
  have hinj := List.inj_on_of_nodup_map hids
  have he := pushToConns_eq conns m
  have hkey : ∀ c', c' ∈ conns → c'.healthy = true → c'.id ≠ c.id := by
    intro c' hc' hh heq
    have hcc : c' = c := hinj hc' hmem heq
    rw [hcc, hfail] at hh
    exact Bool.noConfusion hh
  refine ⟨?_, ?_, ?_, ?_⟩
  · rw [he]
    intro hcf
    have hb := (List.mem_filter.mp hcf).2
    rw [hfail] at hb
    exact Bool.noConfusion hb
  · intro c' hc' hh
    rw [he]
    exact ⟨List.mem_filter.mpr ⟨hc', hh⟩,
      List.mem_map.mpr ⟨c', List.mem_filter.mpr ⟨hc', hh⟩, rfl⟩⟩
  · intro mm hin
    rw [he] at hin
    obtain ⟨c', hc'f, heq⟩ := List.mem_map.mp hin
    obtain ⟨hc'mem, hc'h⟩ := List.mem_filter.mp hc'f
    exact hkey c' hc'mem hc'h (congrArg Prod.fst heq)
  · intro mm hin
    rw [pushToConns_eq (pushToConns conns m).1 m2] at hin
    obtain ⟨c', hc'f, heq⟩ := List.mem_map.mp hin
    obtain ⟨hc'mem, hc'h⟩ := List.mem_filter.mp hc'f
    rw [he] at hc'mem
    obtain ⟨hc'c, _⟩ := List.mem_filter.mp hc'mem
    exact hkey c' hc'c hc'h (congrArg Prod.fst heq)

/-- Three subscribers, the middle one broken, for the C4 witness. -/
def c4Conns : List Conn :=
  [{ id := 1, healthy := true }, { id := 2, healthy := false },
   { id := 3, healthy := true }]

/-- C4 witness: the broken subscriber 2 is evicted by the first publish and
receives neither that message nor the next one, while subscriber 1 is
delivered to. -/
theorem publish_evicts_failed_witness :
    ({ id := 2, healthy := false } : Conn) ∉
        (pushToConns c4Conns (Msg.text "x")).1 ∧
    ((1 : Nat), Msg.text "x") ∈ (pushToConns c4Conns (Msg.text "x")).2 ∧
    ((2 : Nat), Msg.text "x") ∉ (pushToConns c4Conns (Msg.text "x")).2 ∧
    ((2 : Nat), Msg.text "y") ∉
        (pushToConns (pushToConns c4Conns (Msg.text "x")).1 (Msg.text "y")).2 := by
  have hw := publish_evicts_failed c4Conns (Msg.text "x") (Msg.text "y")
    { id := 2, healthy := false } (by decide) rfl (by decide)
  exact ⟨hw.1, (hw.2.1 { id := 1, healthy := true } (by decide) rfl).2,
    hw.2.2.1 (Msg.text "x"), hw.2.2.2 (Msg.text "y")⟩

/-! ### C5: broadcaster calls per handled event -/

theorem setUsecaseSupportedForPeer_of_some (h : Hems) (ski name : String)
    (sup : Bool) (p : PeerData) (hp : lookupA h.peers ski = some p) :
    (setUsecaseSupportedForPeer h ski name sup).2
        = [Msg.usecase name sup p.ski] ∧
    lookupA (setUsecaseSupportedForPeer h ski name sup).1.peers ski
        = some { p with usecaseState := insertA p.usecaseState name sup } := by
  simp [setUsecaseSupportedForPeer, hp, lookupA_insertA_self]

theorem modifyUsecaseData_lookup (h : Hems) (ski : String)
    (f : UsecaseData → UsecaseData) (p : PeerData)
    (hp : lookupA h.peers ski = some p) :
    lookupA (modifyUsecaseData h ski f).peers ski
      = some { p with usecaseData := f p.usecaseData } := by
  simp [modifyUsecaseData, hp, lookupA_insertA_self]

theorem updateEntitiesFromDevice_of_some (h : Hems) (ski : String)
    (ents : List String) (p : PeerData) (hp : lookupA h.peers ski = some p) :
    (updateEntitiesFromDevice h ski (some ents)).2 = [Msg.entities ski ents] ∧
    lookupA (updateEntitiesFromDevice h ski (some ents)).1.peers ski
        = some { p with entities := ents, lastEntitiesJSON := ents } := by
  simp [updateEntitiesFromDevice, hp, lookupA_insertA_self]

/-- Empty state for the C5 counterexample. -/
def c5State : Hems :=
  { logs := [], maxLogs := 1000, wsConns := [], peers := [],
    globalUseCaseState := [] }

/-- All accessors failing; irrelevant for a support-update event. -/
def c5Access : LppAccess :=
  { failsafeDurationMinimum := none
    failsafeProductionActivePowerLimit := none
    productionLimit := none
    heartbeatWithinDuration := false }

/-- C5 counterexample: one LPP support-update event triggers three
Broadcaster calls (the duplicated `setUsecaseSupportedForPeer` invocation
plus the unconditional entity-snapshot broadcast), refuting "exactly one
Broadcaster call per event". -/
theorem handleEgLPP_three_broadcasts :
    (HandleEgLPP c5State "ABC" (some []) c5Access
        LppEvent.useCaseSupportUpdate 0).2.length = 3 ∧
    ¬ (HandleEgLPP c5State "ABC" (some []) c5Access
        LppEvent.useCaseSupportUpdate 0).2.length = 1 := by
  constructor
  · rfl
  · intro hcontra
    rw [show (HandleEgLPP c5State "ABC" (some []) c5Access
        LppEvent.useCaseSupportUpdate 0).2.length = 3 from rfl] at hcontra
    exact Nat.noConfusion (Nat.succ.inj hcontra)

/-- C5 amended: with a non-nil device, every `HandleEgLPP` invocation ends
in exactly one topology broadcast, every value-update branch adds no other
broadcast, but a support-update event additionally broadcasts the use-case
message twice (the call appears both before and inside the switch), for
three Broadcaster calls; `HandleEgLPC` makes two Broadcaster calls on its
support-update branch and one on every other branch. -/
theorem handler_broadcast_counts (h : Hems) (ski : String) (ents : List String)
    (acc : LppAccess) (acc2 : LpcAccess) (ev : LppEvent) (ev2 : LpcEvent)
    (now : Nat) :
    (HandleEgLPP h ski (some ents) acc ev now).2.length
        = (if ev = LppEvent.useCaseSupportUpdate then 3 else 1) ∧
    (HandleEgLPC h ski (some ents) acc2 ev2 now).2.length
        = (if ev2 = LpcEvent.useCaseSupportUpdate then 2 else 1) := by
  have hp0 := getOrCreatePeer_lookup_self h ski now
  constructor
  · cases ev with
    | useCaseSupportUpdate =>
        obtain ⟨hpub1, hlk1⟩ :=
          setUsecaseSupportedForPeer_of_some _ ski "LPP" true _ hp0
        obtain ⟨hpub2, hlk2⟩ :=
          setUsecaseSupportedForPeer_of_some _ ski "LPP" true _ hlk1
        obtain ⟨hpub3, _⟩ :=
          updateEntitiesFromDevice_of_some _ ski ents _ hlk2
        simp [HandleEgLPP, hpub1, hpub2, hpub3]
    | dataUpdateFailsafeDurationMinimum =>
        cases hacc : acc.failsafeDurationMinimum with
        | none =>
            obtain ⟨hpub3, _⟩ := updateEntitiesFromDevice_of_some _ ski ents _ hp0
            simp [HandleEgLPP, hacc, hpub3]
        | some v =>
            have hlk := modifyUsecaseData_lookup (getOrCreatePeer h ski now).2
              ski (fun d => { d with lppFailsafeDur := v.tdiv timeMinute }) _ hp0
            obtain ⟨hpub3, _⟩ := updateEntitiesFromDevice_of_some _ ski ents _ hlk
            simp [HandleEgLPP, hacc, hpub3]
    | dataUpdateFailsafeProductionActivePowerLimit =>
        cases hacc : acc.failsafeProductionActivePowerLimit with
        | none =>
            obtain ⟨hpub3, _⟩ := updateEntitiesFromDevice_of_some _ ski ents _ hp0
            simp [HandleEgLPP, hacc, hpub3]
        | some v =>
            have hlk := modifyUsecaseData_lookup (getOrCreatePeer h ski now).2
              ski (fun d => { d with lppFailsafeValue := v }) _ hp0
            obtain ⟨hpub3, _⟩ := updateEntitiesFromDevice_of_some _ ski ents _ hlk
            simp [HandleEgLPP, hacc, hpub3]
    | dataUpdateLimit =>
        cases hacc : acc.productionLimit with
        | none =>
            obtain ⟨hpub3, _⟩ := updateEntitiesFromDevice_of_some _ ski ents _ hp0
            simp [HandleEgLPP, hacc, hpub3]
        | some v =>
            have hlk := modifyUsecaseData_lookup (getOrCreatePeer h ski now).2
              ski (fun d => { d with
                lppLimitValue := v.value
                lppLimitDuration := v.duration.tdiv timeSecond
                lppLimitActive := v.isActive }) _ hp0
            obtain ⟨hpub3, _⟩ := updateEntitiesFromDevice_of_some _ ski ents _ hlk
            simp [HandleEgLPP, hacc, hpub3]
    | dataUpdateHeartbeat =>
        have hlk := modifyUsecaseData_lookup (getOrCreatePeer h ski now).2
          ski (fun d => { d with
            lppHeartbeatOk := acc.heartbeatWithinDuration
            lppHeartbeatTimestamp := now }) _ hp0
        obtain ⟨hpub3, _⟩ := updateEntitiesFromDevice_of_some _ ski ents _ hlk
        simp [HandleEgLPP, hpub3]
    | otherEvent =>
        obtain ⟨hpub3, _⟩ := updateEntitiesFromDevice_of_some _ ski ents _ hp0
        simp [HandleEgLPP, hpub3]
  · cases ev2 with
    | useCaseSupportUpdate =>
        obtain ⟨hpub1, hlk1⟩ :=
          setUsecaseSupportedForPeer_of_some _ ski "LPC" true _ hp0
        obtain ⟨hpub3, _⟩ := updateEntitiesFromDevice_of_some _ ski ents _ hlk1
        simp [HandleEgLPC, hpub1, hpub3]
    | dataUpdateLimit =>
        cases hacc : acc2.consumptionLimit with
        | none =>
            obtain ⟨hpub3, _⟩ := updateEntitiesFromDevice_of_some _ ski ents _ hp0
            simp [HandleEgLPC, hacc, hpub3]
        | some v =>
            have hlk := modifyUsecaseData_lookup (getOrCreatePeer h ski now).2
              ski (fun d => { d with
                lpcLimitActive := v.isActive
                lpcLimitDurSeconds := v.duration.tdiv timeSecond
                lpcLimitValue := v.value }) _ hp0
            obtain ⟨hpub3, _⟩ := updateEntitiesFromDevice_of_some _ ski ents _ hlk
            simp [HandleEgLPC, hacc, hpub3]
    | dataUpdateFailsafeDurationMinimum =>
        cases hacc : acc2.failsafeDurationMinimum with
        | none =>
            obtain ⟨hpub3, _⟩ := updateEntitiesFromDevice_of_some _ ski ents _ hp0
            simp [HandleEgLPC, hacc, hpub3]
        | some v =>
            have hlk := modifyUsecaseData_lookup (getOrCreatePeer h ski now).2
              ski (fun d => { d with lpcFailsafeDur := v.tdiv timeMinute }) _ hp0
            obtain ⟨hpub3, _⟩ := updateEntitiesFromDevice_of_some _ ski ents _ hlk
            simp [HandleEgLPC, hacc, hpub3]
    | dataUpdateFailsafeConsumptionActivePowerLimit =>
        cases hacc : acc2.failsafeConsumptionActivePowerLimit with
        | none =>
            obtain ⟨hpub3, _⟩ := updateEntitiesFromDevice_of_some _ ski ents _ hp0
            simp [HandleEgLPC, hacc, hpub3]
        | some v =>
            have hlk := modifyUsecaseData_lookup (getOrCreatePeer h ski now).2
              ski (fun d => { d with lpcFailsafePower := v }) _ hp0
            obtain ⟨hpub3, _⟩ := updateEntitiesFromDevice_of_some _ ski ents _ hlk
            simp [HandleEgLPC, hacc, hpub3]
    | dataUpdateHeartbeat =>
        have hlk := modifyUsecaseData_lookup (getOrCreatePeer h ski now).2
          ski (fun d => { d with
            lpcHeartbeatOk := acc2.heartbeatWithinDuration
            lpcHeartbeatTimestamp := now }) _ hp0
        obtain ⟨hpub3, _⟩ := updateEntitiesFromDevice_of_some _ ski ents _ hlk
        simp [HandleEgLPC, hpub3]
    | otherEvent =>
        cases hacc : acc2.consumptionNominalMax with
        | none =>
            obtain ⟨hpub3, _⟩ := updateEntitiesFromDevice_of_some _ ski ents _ hp0
            simp [HandleEgLPC, hacc, hpub3]
        | some v =>
            have hlk := modifyUsecaseData_lookup (getOrCreatePeer h ski now).2
              ski (fun d => { d with lpcConsumptionLimitNominalMax := v }) _ hp0
            obtain ⟨hpub3, _⟩ := updateEntitiesFromDevice_of_some _ ski ents _ hlk
            simp [HandleEgLPC, hacc, hpub3]

/-! ### C6: snapshot delivery to a newly attached subscriber -/

/-- C6 counterexample: a lock-respecting interleaving of the attach
handler with one in-flight `appendLog` broadcast in which the new
subscriber receives the broadcast's delta message before the snapshot —
possible because the connection is registered and `wsMu` released before
the snapshot is written. -/
theorem snapshot_race_delta_first :
    (runSnap raceSchedule snapInit).isSome = true ∧
    receivedOf (runSnap raceSchedule snapInit)
      = [SnapMsg.delta, SnapMsg.snapshot] := by
  exact ⟨rfl, rfl⟩

/-- C6 amended: the attach handler sends the snapshot to the new
subscriber immediately after registering it (registration strictly
precedes the snapshot write in the handler's own sequence, and with no
concurrent broadcast the subscriber receives snapshot first), but the
registration is completed and the subscriber-set lock released before the
snapshot is written, so a concurrently in-flight event broadcast may be
delivered to the new subscriber before the snapshot. -/
theorem snapshot_follows_registration :
    (runSnap sequentialSchedule snapInit).isSome = true ∧
    receivedOf (runSnap sequentialSchedule snapInit)
      = [SnapMsg.snapshot, SnapMsg.delta] ∧
    wsHandlerThread.indexOf SnapAct.register = 1 ∧
    wsHandlerThread.indexOf SnapAct.sendSnapshot = 5 := by
  exact ⟨rfl, rfl, rfl, rfl⟩

/-! ### C7: retroactive application of global enablement changes -/

theorem lookupA_map_usecase (m : List (String × PeerData)) (name : String)
    (sup : Bool) (k : String) :
    lookupA (m.map (fun kp =>
        (kp.1, { kp.2 with usecaseState := insertA kp.2.usecaseState name sup }))) k
      = (lookupA m k).map
          (fun p => { p with usecaseState := insertA p.usecaseState name sup }) := by
  induction m with
  | nil => simp [lookupA]
  | cons q rest ih =>
      by_cases hk : q.1 = k <;> simp [lookupA, hk, ih]

/-- C7: a global enablement change (`setUsecaseSupported` with a value
different from the stored one) rewrites the support entry of every peer
record existing at that moment, leaving the rest of each record unchanged,
and `getOrCreatePeer` seeds a newly created record's support map as a copy
of the current global enablement state. -/
theorem globalEnablement_retroactive (h : Hems) (name : String)
    (supported : Bool) (ski : String) (t : Nat) :
    (lookupA h.globalUseCaseState name ≠ some supported →
      ∀ k p, lookupA h.peers k = some p →
        lookupA (setUsecaseSupported h name supported).1.peers k
          = some { p with usecaseState := insertA p.usecaseState name supported }) ∧
    (lookupA h.peers ski = none →
      (getOrCreatePeer h ski t).1.usecaseState = h.globalUseCaseState) := by
  constructor
  · intro hdiff k p hp
    simp only [setUsecaseSupported]
    rw [if_neg hdiff, lookupA_map_usecase, hp]
    rfl
  · intro habs
    simp [getOrCreatePeer, habs]

/-- Two existing peers and a fresh-creation scenario for the C7 witness. -/
def c7State : Hems :=
  { logs := []
    maxLogs := 1000
    wsConns := []
    peers :=
      [("P1", { usecaseData := {}, entities := [], lastEntitiesJSON := [],
                usecaseState := [("LPC", false)], connected := true,
                ski := "P1", lastSeen := 0 }),
       ("P2", { usecaseData := {}, entities := [], lastEntitiesJSON := [],
                usecaseState := [], connected := false,
                ski := "P2", lastSeen := 0 })]
    globalUseCaseState := [("LPC", false)] }

/-- C7 witness: flipping "LPC" to supported updates both existing records,
and a record created afterwards is seeded from the flipped global state. -/
theorem globalEnablement_retroactive_witness :
    lookupA (setUsecaseSupported c7State "LPC" true).1.peers "P2"
      = some { usecaseData := {}, entities := [], lastEntitiesJSON := [],
               usecaseState := [("LPC", true)], connected := false,
               ski := "P2", lastSeen := 0 } ∧
    (getOrCreatePeer (setUsecaseSupported c7State "LPC" true).1 "P3" 7).1.usecaseState
      = [("LPC", true)] := by
  have hw := globalEnablement_retroactive c7State "LPC" true "P3" 7
  have hw2 := globalEnablement_retroactive
    (setUsecaseSupported c7State "LPC" true).1 "LPC" true "P3" 7
  constructor
  · have := hw.1 (by decide) "P2"
      { usecaseData := {}, entities := [], lastEntitiesJSON := [],
        usecaseState := [], connected := false, ski := "P2", lastSeen := 0 }
      (by decide)
    simpa [insertA] using this
  · have hseed := hw2.2 (by decide)
    rw [hseed]
    decide

/-! ### C8: accessor failure keeps stale values; success overwrites
exactly the affected fields -/

theorem updateEntities_preserves_usecaseData (h : Hems) (ski : String)
    (device : Option (List String)) (p : PeerData)
    (hp : lookupA h.peers ski = some p) :
    ∃ q, lookupA (updateEntitiesFromDevice h ski device).1.peers ski = some q ∧
      q.usecaseData = p.usecaseData := by
  cases device with
  | none => exact ⟨p, by simp [updateEntitiesFromDevice, hp], rfl⟩
  | some ents =>
      exact ⟨_, (updateEntitiesFromDevice_of_some h ski ents p hp).2, rfl⟩

theorem modify_then_update_frame (st : Hems) (ski : String)
    (f : UsecaseData → UsecaseData) (device : Option (List String))
    (p1 : PeerData) (hp1 : lookupA st.peers ski = some p1) :
    ∃ q, lookupA (updateEntitiesFromDevice (modifyUsecaseData st ski f)
        ski device).1.peers ski = some q ∧
      q.usecaseData = f p1.usecaseData := by
  have hlk := modifyUsecaseData_lookup st ski f p1 hp1
  obtain ⟨q, hq, hqd⟩ := updateEntities_preserves_usecaseData _ ski device _ hlk
  exact ⟨q, hq, by rw [hqd]⟩

/-- C8: for every value-update event of `HandleEgLPC` and `HandleEgEvcem`,
a failing accessor leaves the peer's whole capability-values record as it
was (the stale value is retained and no other field is touched), while a
successful accessor overwrites exactly the affected field(s) and nothing
else. -/
theorem valueUpdate_frame (h : Hems) (ski : String) (p : PeerData)
    (device : Option (List String)) (acc : LpcAccess) (acc2 : EvcemAccess)
    (now : Nat) (hp : lookupA h.peers ski = some p) :
    (acc.consumptionLimit = none →
      ∃ q, lookupA (HandleEgLPC h ski device acc
          LpcEvent.dataUpdateLimit now).1.peers ski = some q ∧
        q.usecaseData = p.usecaseData) ∧
    (∀ lim, acc.consumptionLimit = some lim →
      ∃ q, lookupA (HandleEgLPC h ski device acc
          LpcEvent.dataUpdateLimit now).1.peers ski = some q ∧
        q.usecaseData = { p.usecaseData with
          lpcLimitActive := lim.isActive
          lpcLimitDurSeconds := lim.duration.tdiv timeSecond
          lpcLimitValue := lim.value }) ∧
    (acc.failsafeDurationMinimum = none →
      ∃ q, lookupA (HandleEgLPC h ski device acc
          LpcEvent.dataUpdateFailsafeDurationMinimum now).1.peers ski = some q ∧
        q.usecaseData = p.usecaseData) ∧
    (∀ v, acc.failsafeDurationMinimum = some v →
      ∃ q, lookupA (HandleEgLPC h ski device acc
          LpcEvent.dataUpdateFailsafeDurationMinimum now).1.peers ski = some q ∧
        q.usecaseData = { p.usecaseData with
          lpcFailsafeDur := v.tdiv timeMinute }) ∧
    (acc.failsafeConsumptionActivePowerLimit = none →
      ∃ q, lookupA (HandleEgLPC h ski device acc
          LpcEvent.dataUpdateFailsafeConsumptionActivePowerLimit
          now).1.peers ski = some q ∧
        q.usecaseData = p.usecaseData) ∧
    (∀ v, acc.failsafeConsumptionActivePowerLimit = some v →
      ∃ q, lookupA (HandleEgLPC h ski device acc
          LpcEvent.dataUpdateFailsafeConsumptionActivePowerLimit
          now).1.peers ski = some q ∧
        q.usecaseData = { p.usecaseData with lpcFailsafePower := v }) ∧
    (acc.consumptionNominalMax = none →
      ∃ q, lookupA (HandleEgLPC h ski device acc
          LpcEvent.otherEvent now).1.peers ski = some q ∧
        q.usecaseData = p.usecaseData) ∧
    (∀ v, acc.consumptionNominalMax = some v →
      ∃ q, lookupA (HandleEgLPC h ski device acc
          LpcEvent.otherEvent now).1.peers ski = some q ∧
        q.usecaseData = { p.usecaseData with
          lpcConsumptionLimitNominalMax := v }) ∧
    (∃ q, lookupA (HandleEgLPC h ski device acc
        LpcEvent.dataUpdateHeartbeat now).1.peers ski = some q ∧
      q.usecaseData = { p.usecaseData with
        lpcHeartbeatOk := acc.heartbeatWithinDuration
        lpcHeartbeatTimestamp := now }) ∧
    (acc2.currentPerPhase = none →
      ∃ q, lookupA (HandleEgEvcem h ski device acc2
          EvcemEvent.dataUpdateCurrentPerPhase now).1.peers ski = some q ∧
        q.usecaseData = p.usecaseData) ∧
    (∀ v, acc2.currentPerPhase = some v →
      ∃ q, lookupA (HandleEgEvcem h ski device acc2
          EvcemEvent.dataUpdateCurrentPerPhase now).1.peers ski = some q ∧
        q.usecaseData = { p.usecaseData with evcemCurrentPerPhase := v }) ∧
    (acc2.phasesConnected = none →
      ∃ q, lookupA (HandleEgEvcem h ski device acc2
          EvcemEvent.dataUpdatePhasesConnected now).1.peers ski = some q ∧
        q.usecaseData = p.usecaseData) ∧
    (∀ v, acc2.phasesConnected = some v →
      ∃ q, lookupA (HandleEgEvcem h ski device acc2
          EvcemEvent.dataUpdatePhasesConnected now).1.peers ski = some q ∧
        q.usecaseData = { p.usecaseData with evcemPhasesConnected := v }) ∧
    (acc2.energyCharged = none →
      ∃ q, lookupA (HandleEgEvcem h ski device acc2
          EvcemEvent.dataUpdateEnergyCharged now).1.peers ski = some q ∧
        q.usecaseData = p.usecaseData) ∧
    (∀ v, acc2.energyCharged = some v →
      ∃ q, lookupA (HandleEgEvcem h ski device acc2
          EvcemEvent.dataUpdateEnergyCharged now).1.peers ski = some q ∧
        q.usecaseData = { p.usecaseData with evcemEnergyCharged := v }) ∧
    (acc2.powerPerPhase = none →
      ∃ q, lookupA (HandleEgEvcem h ski device acc2
          EvcemEvent.dataUpdatePowerPerPhase now).1.peers ski = some q ∧
        q.usecaseData = p.usecaseData) ∧
    (∀ v, acc2.powerPerPhase = some v →
      ∃ q, lookupA (HandleEgEvcem h ski device acc2
          EvcemEvent.dataUpdatePowerPerPhase now).1.peers ski = some q ∧
        q.usecaseData = { p.usecaseData with evcemPowerPerPhase := v }) := by
  have h1 := getOrCreatePeer_of_lookup_some h ski now p hp
  have hp1 : lookupA (getOrCreatePeer h ski now).2.peers ski
      = some ({ p with lastSeen := now }) := by
    rw [h1]
    exact lookupA_insertA_self _ _ _
  refine ⟨?_, ?_, ?_, ?_, ?_, ?_, ?_, ?_, ?_, ?_, ?_, ?_, ?_, ?_, ?_, ?_, ?_⟩
  · intro hacc
    simp only [HandleEgLPC, hacc]
    exact updateEntities_preserves_usecaseData _ ski device ({ p with lastSeen := now }) hp1
  · intro lim hacc
    simp only [HandleEgLPC, hacc]
    exact modify_then_update_frame _ ski _ device ({ p with lastSeen := now }) hp1
  · intro hacc
    simp only [HandleEgLPC, hacc]
    exact updateEntities_preserves_usecaseData _ ski device ({ p with lastSeen := now }) hp1
  · intro v hacc
    simp only [HandleEgLPC, hacc]
    exact modify_then_update_frame _ ski _ device ({ p with lastSeen := now }) hp1
  · intro hacc
    simp only [HandleEgLPC, hacc]
    exact updateEntities_preserves_usecaseData _ ski device ({ p with lastSeen := now }) hp1
  · intro v hacc
    simp only [HandleEgLPC, hacc]
    exact modify_then_update_frame _ ski _ device ({ p with lastSeen := now }) hp1
  · intro hacc
    simp only [HandleEgLPC, hacc]
    exact updateEntities_preserves_usecaseData _ ski device ({ p with lastSeen := now }) hp1
  · intro v hacc
    simp only [HandleEgLPC, hacc]
    exact modify_then_update_frame _ ski _ device ({ p with lastSeen := now }) hp1
  · simp only [HandleEgLPC]
    exact modify_then_update_frame _ ski _ device ({ p with lastSeen := now }) hp1
  · intro hacc
    simp only [HandleEgEvcem, hacc]
    exact updateEntities_preserves_usecaseData _ ski device ({ p with lastSeen := now }) hp1
  · intro v hacc
    simp only [HandleEgEvcem, hacc]
    exact modify_then_update_frame _ ski _ device ({ p with lastSeen := now }) hp1
  · intro hacc
    simp only [HandleEgEvcem, hacc]
    exact updateEntities_preserves_usecaseData _ ski device ({ p with lastSeen := now }) hp1
  · intro v hacc
    simp only [HandleEgEvcem, hacc]
    exact modify_then_update_frame _ ski _ device ({ p with lastSeen := now }) hp1
  · intro hacc
    simp only [HandleEgEvcem, hacc]
    exact updateEntities_preserves_usecaseData _ ski device ({ p with lastSeen := now }) hp1
  · intro v hacc
    simp only [HandleEgEvcem, hacc]
    exact modify_then_update_frame _ ski _ device ({ p with lastSeen := now }) hp1
  · intro hacc
    simp only [HandleEgEvcem, hacc]
    exact updateEntities_preserves_usecaseData _ ski device ({ p with lastSeen := now }) hp1
  · intro v hacc
    simp only [HandleEgEvcem, hacc]
    exact modify_then_update_frame _ ski _ device ({ p with lastSeen := now }) hp1

/-- A peer with a stale LPC limit value for the C8 witness. -/
def c8Peer : PeerData :=
  { usecaseData := { lpcLimitValue := 42 }
    entities := []
    lastEntitiesJSON := []
    usecaseState := []
    connected := true
    ski := "P"
    lastSeen := 0 }

/-- Registry holding `c8Peer`. -/
def c8State : Hems :=
  { logs := [], maxLogs := 1000, wsConns := [], peers := [("P", c8Peer)],
    globalUseCaseState := [] }

/-- All LPC accessors failing. -/
def c8AccFail : LpcAccess :=
  { consumptionLimit := none
    failsafeDurationMinimum := none
    failsafeConsumptionActivePowerLimit := none
    heartbeatWithinDuration := false
    consumptionNominalMax := none }

/-- The consumption-limit accessor succeeding. -/
def c8AccOk : LpcAccess :=
  { consumptionLimit := some { value := 7, duration := 5000000000, isActive := true }
    failsafeDurationMinimum := none
    failsafeConsumptionActivePowerLimit := none
    heartbeatWithinDuration := false
    consumptionNominalMax := none }

/-- EVCEM accessors, all failing. -/
def c8AccEvcem : EvcemAccess :=
  { currentPerPhase := none
    phasesConnected := none
    energyCharged := none
    powerPerPhase := none }

/-- C8 witness: with the accessor failing, the stale limit value 42
survives the event untouched; with the accessor succeeding, exactly the
three limit fields are overwritten. -/
theorem valueUpdate_frame_witness :
    (∃ q, lookupA (HandleEgLPC c8State "P" none c8AccFail
        LpcEvent.dataUpdateLimit 1).1.peers "P" = some q ∧
      q.usecaseData = c8Peer.usecaseData) ∧
    (∃ q, lookupA (HandleEgLPC c8State "P" none c8AccOk
        LpcEvent.dataUpdateLimit 1).1.peers "P" = some q ∧
      q.usecaseData = { c8Peer.usecaseData with
        lpcLimitActive := true
        lpcLimitDurSeconds := 5
        lpcLimitValue := 7 }) := by
  have hw := valueUpdate_frame c8State "P" c8Peer none c8AccFail c8AccEvcem 1
    (by decide)
  have hw2 := valueUpdate_frame c8State "P" c8Peer none c8AccOk c8AccEvcem 1
    (by decide)
  refine ⟨hw.1 rfl, ?_⟩
  have hs := hw2.2.1 { value := 7, duration := 5000000000, isActive := true } rfl
  obtain ⟨q, hq, hqd⟩ := hs
  exact ⟨q, hq, by rw [hqd]; rfl⟩

/-! ### C9: identifier correlation from free text -/

theorem find?_first {α : Type} (f : α → Bool) :
    ∀ (pre : List α) (x : α) (suf : List α), f x = true →
      (∀ y ∈ pre, f y = false) → (pre ++ x :: suf).find? f = some x := by
  intro pre
  induction pre with
  | nil =>
      intro x suf hx _
      simp [List.find?, hx]
  | cons a as ih =>
      intro x suf hx hpre
      have ha : f a = false := hpre a (by simp)
      simp only [List.cons_append, List.find?, ha]
      exact ih x suf hx (fun y hy => hpre y (by simp [hy]))

/-- A registered peer with identifier "aa". -/
def c9Peer : PeerData :=
  { usecaseData := {}, entities := [], lastEntitiesJSON := [],
    usecaseState := [], connected := true, ski := "aa", lastSeen := 0 }

/-- A registered peer with identifier "bb". -/
def c9PeerB : PeerData :=
  { usecaseData := {}, entities := [], lastEntitiesJSON := [],
    usecaseState := [], connected := true, ski := "bb", lastSeen := 0 }

/-- Registry with "aa" registered first and "bb" second. -/
def c9TwoPeers : Hems :=
  { logs := [], maxLogs := 1000, wsConns := [],
    peers := [("aa", c9Peer), ("bb", c9PeerB)],
    globalUseCaseState := [] }

/-- Registry with no registered peers. -/
def c9NoPeers : Hems :=
  { logs := [], maxLogs := 1000, wsConns := [], peers := [],
    globalUseCaseState := [] }

/-- A 64-character hex token. -/
def c9HexWord : String :=
  "0123456789abcdef0123456789abcdef0123456789abcdef0123456789abcdef"

/-- C9 counterexample: the Go source scans the peer map with
`for ski := range h.peers`, whose iteration order is unspecified and
randomized.  With "aa" registered before "bb" and a line containing both,
the iteration order `["bb", "aa"]` — which the runtime may present — makes
the correlator return "bb", not the first currently-registered identifier
"aa"; a different permissible order returns "aa", so the result is not
"the first currently-registered identifier" in any program-guaranteed
sense. -/
theorem extractSKI_order_dependent :
    ["bb", "aa"].Perm (keysA c9TwoPeers.peers) ∧
    ["aa", "bb"].Perm (keysA c9TwoPeers.peers) ∧
    extractSKIFromMessage ["bb", "aa"] "xx aa bb yy" = "bb" ∧
    extractSKIFromMessage ["aa", "bb"] "xx aa bb yy" = "aa" ∧
    ¬ extractSKIFromMessage ["bb", "aa"] "xx aa bb yy" = "aa" := by
  decide

/-- C9 amended: when at least one currently-registered identifier occurs
as an exact substring of the line, the correlator returns a registered
identifier that occurs in the line — namely the first match in whatever
order the runtime iterates the peer map (an arbitrary permutation of the
registered identifiers), so which matching identifier is returned is
unspecified when several occur; when no registered identifier is
contained, it returns the first whitespace-delimited word that, after
trimming surrounding delimiter characters, is exactly 64 hexadecimal
characters (in trimmed form); otherwise the empty string. -/
theorem extractSKI_heuristic (h : Hems) (peerOrder : List String)
    (msg : String) (hperm : peerOrder.Perm (keysA h.peers)) :
    ((∃ s ∈ keysA h.peers, containsSub msg.toList s.toList = true) →
      extractSKIFromMessage peerOrder msg ∈ keysA h.peers ∧
      containsSub msg.toList
        (extractSKIFromMessage peerOrder msg).toList = true) ∧
    (∀ pre s suf, peerOrder = pre ++ s :: suf →
      containsSub msg.toList s.toList = true →
      (∀ x ∈ pre, containsSub msg.toList x.toList = false) →
      extractSKIFromMessage peerOrder msg = s) ∧
    ((∀ x ∈ keysA h.peers, containsSub msg.toList x.toList = false) →
      (∀ pre w suf, goFields msg.toList = pre ++ w :: suf →
        isSkiWord w = true → (∀ x ∈ pre, isSkiWord x = false) →
        extractSKIFromMessage peerOrder msg = String.mk (goTrim w skiDelims)) ∧
      ((∀ w ∈ goFields msg.toList, isSkiWord w = false) →
        extractSKIFromMessage peerOrder msg = "")) := by
  refine ⟨?_, ?_, ?_⟩
  · rintro ⟨s, hs, hcs⟩
    have hsπ : s ∈ peerOrder := hperm.mem_iff.mpr hs
    cases hf : peerOrder.find? (fun ski => containsSub msg.toList ski.toList) with
    | none =>
        exact absurd hcs (List.find?_eq_none.mp hf s hsπ)
    | some r =>
        have h1 : extractSKIFromMessage peerOrder msg = r := by
          unfold extractSKIFromMessage
          rw [hf]
        have hr1 : r ∈ peerOrder := List.mem_of_find?_eq_some hf
        have hr2 := List.find?_some hf
        rw [h1]
        exact ⟨hperm.mem_iff.mp hr1, hr2⟩
  · intro pre s suf hsplit hs hpre
    have hf : peerOrder.find?
        (fun ski => containsSub msg.toList ski.toList) = some s := by
      rw [hsplit]
      exact find?_first _ pre s suf hs hpre
    unfold extractSKIFromMessage
    rw [hf]
  · intro hnone
    have hf : peerOrder.find?
        (fun ski => containsSub msg.toList ski.toList) = none :=
      List.find?_eq_none.mpr
        (fun x hx => by simpa using hnone x (hperm.mem_iff.mp hx))
    constructor
    · intro pre w suf hsplit hw hpre
      have hf2 : (goFields msg.toList).find? isSkiWord = some w := by
        rw [hsplit]
        exact find?_first _ pre w suf hw hpre
      unfold extractSKIFromMessage
      rw [hf, hf2]
    · intro hall
      have hf2 : (goFields msg.toList).find? isSkiWord = none :=
        List.find?_eq_none.mpr (fun x hx => by simp [hall x hx])
      unfold extractSKIFromMessage
      rw [hf, hf2]

/-- C9 amended, witness: under the iteration order `["bb", "aa"]` of the
two-peer registry, the result is a registered identifier contained in the
line (here "bb", the first match in that order); with no registered
identifiers, the first 64-hex word (trimmed of its brackets) is
returned. -/
theorem extractSKI_heuristic_witness :
    extractSKIFromMessage ["bb", "aa"] "xx aa bb yy" ∈
        keysA c9TwoPeers.peers ∧
    containsSub "xx aa bb yy".toList
        (extractSKIFromMessage ["bb", "aa"] "xx aa bb yy").toList = true ∧
    extractSKIFromMessage ["bb", "aa"] "xx aa bb yy" = "bb" ∧
    extractSKIFromMessage [] ("ski: [" ++ c9HexWord ++ "]") = c9HexWord := by
  have hw := extractSKI_heuristic c9TwoPeers ["bb", "aa"] "xx aa bb yy"
    (by decide)
  have hw2 := extractSKI_heuristic c9NoPeers []
    ("ski: [" ++ c9HexWord ++ "]") (by decide)
  have hwa := hw.1 ⟨"aa", by decide, by decide⟩
  refine ⟨hwa.1, hwa.2, ?_, ?_⟩
  · exact hw.2.1 [] "bb" ["aa"] rfl (by decide) (by simp)
  · have hsec := hw2.2.2 (by simp [c9NoPeers, keysA])
    have h2 := hsec.1 ["ski:".toList] ("[" ++ c9HexWord ++ "]").toList []
      (by decide) (by decide) (by decide)
    rw [h2]
    decide

/-! ### C10: lock discipline -/

/-- C10 counterexample: `appendLog` holds two locks simultaneously (the
log lock and, nested inside it, the subscriber-set lock) and performs its
subscriber network writes while both are held, refuting "at most one lock
at a time" and "no lock held while writing to a subscriber's sink". -/
theorem appendLog_write_under_two_locks :
    maxLocksHeld appendLogLockTrace = 2 ∧
    writeWhileLocked appendLogLockTrace = true ∧
    ¬ maxLocksHeld appendLogLockTrace ≤ 1 := by
  refine ⟨rfl, rfl, by decide⟩

/-- C10 amended: the locking discipline nests locks two deep rather than
serializing them: `appendLog` acquires the subscriber-set lock while still
holding the log lock and writes to subscriber sinks under both;
`getOrCreatePeer` acquires the use-case lock inside the peer lock, while
`setUsecaseSupported` acquires the peer and subscriber-set locks inside
the use-case lock (the opposite order) and serializes and writes under
lock; only `broadcastPeerList` copies the peer list under its lock and
releases it before serializing, though its sink writes still occur under
the subscriber-set lock. -/
theorem lock_discipline_nested :
    maxLocksHeld getOrCreatePeerLockTrace = 2 ∧
    acqSeq getOrCreatePeerLockTrace = [LockId.peersMu, LockId.ucMu] ∧
    acqSeq setUsecaseSupportedLockTrace
      = [LockId.ucMu, LockId.peersMu, LockId.wsMu] ∧
    writeWhileLocked setUsecaseSupportedLockTrace = true ∧
    serializeWhileLocked setUsecaseSupportedLockTrace = true ∧
    acqSeq broadcastPeerListLockTrace = [LockId.peersMu, LockId.wsMu] ∧
    serializeWhileLocked broadcastPeerListLockTrace = false ∧
    writeWhileLocked broadcastPeerListLockTrace = true ∧
    maxLocksHeld broadcastPeerListLockTrace = 1 := by
  decide

end DeviceTester
